import Mathlib

/-!
Verification of the receipt scanner and categorizer (`receiptprocessor.py`).

Text is modelled as a list of Unicode code points (`List Nat`); Python string
operations used by the program (`str.lower`, substring containment, the three
regular expressions, `datetime.strptime` with format `%m/%d/%Y`, date
subtraction) are embedded below, restricted to the ASCII fragment the program
relies on.
-/

namespace Receipt

/-- Code points of a Lean string literal, used to write concrete texts. -/
def strToL (s : String) : List Nat := s.data.map Char.toNat

/-- ASCII fragment of Python `str.lower` on one code point. -/
def toLowerN (c : Nat) : Nat := if 65 ≤ c ∧ c ≤ 90 then c + 32 else c

/-- `text.lower()` on a whole text. -/
def lowerL (l : List Nat) : List Nat := l.map toLowerN

/-- `needle` is a prefix of the second list. -/
def isPrefixL : List Nat → List Nat → Bool
  | [], _ => true
  | _ :: _, [] => false
  | a :: as, b :: bs => (a == b) && isPrefixL as bs

/-- Python substring containment `needle in hay`. -/
def containsSub (needle : List Nat) : List Nat → Bool
  | [] => needle.isEmpty
  | c :: rest => isPrefixL needle (c :: rest) || containsSub needle rest

/-!
## Categorizer (`categorize_receipt`, lines 28-39)

The Python function iterates over a literal `dict` in insertion order
(restaurant, grocery, electronics, warrenty) and returns the first key whose
keyword list contains a member of `text.lower()`; the loop over the fixed
literal table is unrolled here.  Note the fourth label is spelled `warrenty`
in the source.
-/

/-- `categorize_receipt` from the source: first dict entry (in insertion
order) with `any(keyword in text.lower() for keyword in keywords)`. -/
def categorize_receipt (text : List Nat) : List Nat :=
  if containsSub (strToL "restaurant") (lowerL text) ||
     containsSub (strToL "cafe") (lowerL text) ||
     containsSub (strToL "diner") (lowerL text) then strToL "restaurant"
  else if containsSub (strToL "grocery") (lowerL text) ||
     containsSub (strToL "supermarket") (lowerL text) ||
     containsSub (strToL "food") (lowerL text) ||
     containsSub (strToL "walmart") (lowerL text) then strToL "grocery"
  else if containsSub (strToL "electronics") (lowerL text) ||
     containsSub (strToL "technology") (lowerL text) ||
     containsSub (strToL "gadget") (lowerL text) then strToL "electronics"
  else if containsSub (strToL "warrenty") (lowerL text) ||
     containsSub (strToL "WARRENTY") (lowerL text) ||
     containsSub (strToL "valid until") (lowerL text) ||
     containsSub (strToL "expiry") (lowerL text) then strToL "warrenty"
  else strToL "other"

/-- The spec's reading of the categorizer: first category, in table order,
for which some keyword of that category appears as a case-insensitive
substring of the text (keyword and text both lowercased). -/
def categorizeSpec (text : List Nat) : List Nat :=
  if containsSub (lowerL (strToL "restaurant")) (lowerL text) ||
     containsSub (lowerL (strToL "cafe")) (lowerL text) ||
     containsSub (lowerL (strToL "diner")) (lowerL text) then strToL "restaurant"
  else if containsSub (lowerL (strToL "grocery")) (lowerL text) ||
     containsSub (lowerL (strToL "supermarket")) (lowerL text) ||
     containsSub (lowerL (strToL "food")) (lowerL text) ||
     containsSub (lowerL (strToL "walmart")) (lowerL text) then strToL "grocery"
  else if containsSub (lowerL (strToL "electronics")) (lowerL text) ||
     containsSub (lowerL (strToL "technology")) (lowerL text) ||
     containsSub (lowerL (strToL "gadget")) (lowerL text) then strToL "electronics"
  else if containsSub (lowerL (strToL "warrenty")) (lowerL text) ||
     containsSub (lowerL (strToL "WARRENTY")) (lowerL text) ||
     containsSub (lowerL (strToL "valid until")) (lowerL text) ||
     containsSub (lowerL (strToL "expiry")) (lowerL text) then strToL "warrenty"
  else strToL "other"

/-- `categorize_receipt` with the dead keyword `'WARRENTY'` removed from the
fourth entry of the table; otherwise identical to the source function. -/
def categorize_receipt_noW (text : List Nat) : List Nat :=
  if containsSub (strToL "restaurant") (lowerL text) ||
     containsSub (strToL "cafe") (lowerL text) ||
     containsSub (strToL "diner") (lowerL text) then strToL "restaurant"
  else if containsSub (strToL "grocery") (lowerL text) ||
     containsSub (strToL "supermarket") (lowerL text) ||
     containsSub (strToL "food") (lowerL text) ||
     containsSub (strToL "walmart") (lowerL text) then strToL "grocery"
  else if containsSub (strToL "electronics") (lowerL text) ||
     containsSub (strToL "technology") (lowerL text) ||
     containsSub (strToL "gadget") (lowerL text) then strToL "electronics"
  else if containsSub (strToL "warrenty") (lowerL text) ||
     containsSub (strToL "valid until") (lowerL text) ||
     containsSub (strToL "expiry") (lowerL text) then strToL "warrenty"
  else strToL "other"

/-!
## Field extractor: warranty date (`extract_warranty_and_products`, line 24)

`re.search(r'warranty.*?(\d\x7b2\x7d/\d\x7b2\x7d/\d\x7b4\x7d)', text, re.IGNORECASE)`:
leftmost match of the literal token `warranty` (case-insensitive), a lazy gap
of non-newline characters, and a `\d\x7b2\x7d/\d\x7b2\x7d/\d\x7b4\x7d` date, returning capture
group 1.  Python's backtracking semantics for this pattern: among all start
positions, the smallest one for which the token is followed, with no
intervening newline, by a date; the lazy gap picks the nearest such date.
-/

/-- ASCII `\d`. -/
def isDigitB (c : Nat) : Bool := (48 ≤ c) && (c ≤ 57)

/-- If the text starts with a `\d\x7b2\x7d/\d\x7b2\x7d/\d\x7b4\x7d` date, return those ten
code points (the capture group, verbatim). -/
def dateHere : List Nat → Option (List Nat)
  | a :: b :: s :: c :: d :: u :: e :: f :: g :: h :: _ =>
    if isDigitB a && isDigitB b && (s == 47) && isDigitB c && isDigitB d &&
       (u == 47) && isDigitB e && isDigitB f && isDigitB g && isDigitB h
    then some [a, b, s, c, d, u, e, f, g, h] else none
  | _ => none

/-- Does the text start with the token `warranty`, case-insensitively? -/
def warrantyAt : List Nat → Bool
  | c0 :: c1 :: c2 :: c3 :: c4 :: c5 :: c6 :: c7 :: _ =>
    (toLowerN c0 == 119) && (toLowerN c1 == 97) && (toLowerN c2 == 114) &&
    (toLowerN c3 == 114) && (toLowerN c4 == 97) && (toLowerN c5 == 110) &&
    (toLowerN c6 == 116) && (toLowerN c7 == 121)
  | _ => false

/-- First date reachable through a gap of non-newline characters (the lazy
`.*?` of the pattern; `.` does not match a newline). -/
def findDateNoNL : List Nat → Option (List Nat)
  | [] => none
  | c :: rest =>
    match dateHere (c :: rest) with
    | some d => some d
    | none => if c == 10 then none else findDateNoNL rest

/-- The warranty-date part of `extract_warranty_and_products`:
`re.search` over start positions, leftmost first. -/
def extract_warranty_date : List Nat → Option (List Nat)
  | [] => none
  | c :: rest =>
    if warrantyAt (c :: rest) then
      match findDateNoNL ((c :: rest).drop 8) with
      | some d => some d
      | none => extract_warranty_date rest
    else extract_warranty_date rest

/-- Gap search as the claim reads it: the date may sit at any distance after
the token, with no restriction on the intervening characters. -/
def findDateAnyGap : List Nat → Option (List Nat)
  | [] => none
  | c :: rest =>
    match dateHere (c :: rest) with
    | some d => some d
    | none => findDateAnyGap rest

/-- Modelled from the claim's words: `warranty` followed, not necessarily
immediately and with no restriction on the gap, by a date. -/
def extract_warranty_date_claim : List Nat → Option (List Nat)
  | [] => none
  | c :: rest =>
    if warrantyAt (c :: rest) then
      match findDateAnyGap ((c :: rest).drop 8) with
      | some d => some d
      | none => extract_warranty_date_claim rest
    else extract_warranty_date_claim rest

/-- No newline among the code points. -/
def noNLB (l : List Nat) : Bool := l.all fun c => !(c == 10)

/-- A match of the warranty regex in `t`: the token at position `i`, a
newline-free gap, and a date at position `j` (its ten code points being `d`). -/
def FullMatch (t : List Nat) (i j : Nat) (d : List Nat) : Prop :=
  warrantyAt (t.drop i) = true ∧ i + 8 ≤ j ∧
  noNLB ((t.drop (i + 8)).take (j - (i + 8))) = true ∧
  dateHere (t.drop j) = some d

/-- `(i, j)` is the leftmost match of the warranty regex: every match starts
no earlier, and among matches starting at `i` the date position `j` is
smallest (the lazy gap). -/
def LeftmostFM (t : List Nat) (i j : Nat) : Prop :=
  ∀ i' j' d', FullMatch t i' j' d' → i ≤ i' ∧ (i' = i → j ≤ j')

/-!
## Field extractor: line items (`extract_warranty_and_products`, line 25)

`re.findall(r'([A-Za-z\s]+)\s+(\d+\.\d\x7b2\x7d)', text)`: non-overlapping
matches, scanned left to right.  For this pattern, an attempt at a given
position goes through the maximal run of name characters (`[A-Za-z\s]`)
starting there: the digits of the price can only start right after that run,
so the greedy group backtracks exactly one character, which `\s+` must
accept.  The attempt succeeds iff the run has at least two characters, ends
in a whitespace character, and a `\d+\.\d\x7b2\x7d` price starts right after it;
group 1 is then the run without its final character and group 2 the price.
On failure the scan advances one position; on success it resumes after the
match.
-/

/-- ASCII `[A-Za-z]`. -/
def isAlphaB (c : Nat) : Bool := ((65 ≤ c) && (c ≤ 90)) || ((97 ≤ c) && (c ≤ 122))

/-- ASCII fragment of Python `\s` (tab through carriage return, the
separator controls 28-31, and space). -/
def isSpaceB (c : Nat) : Bool := ((9 ≤ c) && (c ≤ 13)) || ((28 ≤ c) && (c ≤ 32))

/-- The character class `[A-Za-z\s]` of the product-name group. -/
def isNameChar (c : Nat) : Bool := isAlphaB c || isSpaceB c

/-- Match `\d+\.\d\x7b2\x7d` at the head of the text: the greedy digit run, a
dot, and exactly two digits.  Returns the matched price and the rest. -/
def priceAt (l : List Nat) : Option (List Nat × List Nat) :=
  if (l.takeWhile isDigitB).isEmpty then none
  else
    match l.drop (l.takeWhile isDigitB).length with
    | p :: a :: b :: rest =>
      if (p == 46) && isDigitB a && isDigitB b
      then some (l.takeWhile isDigitB ++ [p, a, b], rest)
      else none
    | _ => none

/-- One scan step of `re.findall` for the line-item pattern; the fuel is an
upper bound on the number of remaining scan positions. -/
def itemsGo : Nat → List Nat → List (List Nat × List Nat)
  | 0, _ => []
  | _, [] => []
  | fuel + 1, c :: rest =>
    match ((c :: rest).takeWhile isNameChar).getLast? with
    | some w =>
      if decide (2 ≤ ((c :: rest).takeWhile isNameChar).length) && isSpaceB w then
        match priceAt ((c :: rest).drop ((c :: rest).takeWhile isNameChar).length) with
        | some (price, tail) =>
          ((c :: rest).take (((c :: rest).takeWhile isNameChar).length - 1), price)
            :: itemsGo fuel tail
        | none => itemsGo fuel rest
      else itemsGo fuel rest
    | none => itemsGo fuel rest

/-- The product part of `extract_warranty_and_products`: the list of
(name, price) pairs, in order of appearance. -/
def extract_products (text : List Nat) : List (List Nat × List Nat) :=
  itemsGo text.length text

/-- A well-formed price string: `\d+\.\d\x7b2\x7d` spanning the whole string
(at least one integer digit, a dot, exactly two fraction digits). -/
def priceWF (p : List Nat) : Bool :=
  (!(p.takeWhile isDigitB).isEmpty) &&
    match p.drop (p.takeWhile isDigitB).length with
    | [q, a, b] => (q == 46) && isDigitB a && isDigitB b
    | _ => false

/-!
## Warranty monitor (`check_expiring_warranties`, lines 79-89)

`datetime.strptime(date_str, "%m/%d/%Y").date()` accepts a one- or
two-digit month 1-12, a slash, a one- or two-digit day 1-31, a slash, and
exactly four digits of year, spanning the whole string; the constructed
date must be a real calendar date (year at least 1, day at most the length
of the month).  Dates are compared through their proleptic-Gregorian
ordinal, as `date` subtraction does.  The `today` read from
`datetime.now().date()` inside the Python function is modelled as an
explicit argument holding the ambient clock value.
-/

/-- Split a token at the first `/`. -/
def splitSlash : List Nat → Option (List Nat × List Nat)
  | [] => none
  | c :: rest =>
    if c == 47 then some ([], rest)
    else
      match splitSlash rest with
      | some (a, b) => some (c :: a, b)
      | none => none

/-- Numeric value of a nonempty all-digit token. -/
def digitsVal (l : List Nat) : Option Nat :=
  if l.isEmpty then none
  else if l.all isDigitB then some (l.foldl (fun acc c => acc * 10 + (c - 48)) 0)
  else none

/-- The `%m` component: `1[0-2]|0[1-9]|[1-9]` followed by the separator. -/
def monthTok (l : List Nat) : Option Nat :=
  match digitsVal l with
  | some v =>
    if (l.length = 1 ∧ 1 ≤ v ∧ v ≤ 9) ∨ (l.length = 2 ∧ 1 ≤ v ∧ v ≤ 12)
    then some v else none
  | none => none

/-- The `%d` component: `3[01]|[12]\d|0[1-9]|[1-9]` followed by the separator. -/
def dayTok (l : List Nat) : Option Nat :=
  match digitsVal l with
  | some v =>
    if (l.length = 1 ∧ 1 ≤ v ∧ v ≤ 9) ∨ (l.length = 2 ∧ 1 ≤ v ∧ v ≤ 31)
    then some v else none
  | none => none

/-- The `%Y` component: exactly four digits, and `datetime` requires the
year to be at least 1. -/
def yearTok (l : List Nat) : Option Nat :=
  match digitsVal l with
  | some v => if l.length = 4 ∧ 1 ≤ v then some v else none
  | none => none

/-- Gregorian leap year, as `datetime` uses. -/
def isLeap (y : Nat) : Bool := (y % 4 == 0) && ((y % 100 != 0) || (y % 400 == 0))

def daysInMonth (y m : Nat) : Nat :=
  if m = 2 then (if isLeap y then 29 else 28)
  else if m = 4 ∨ m = 6 ∨ m = 9 ∨ m = 11 then 30
  else 31

/-- `datetime.strptime(s, "%m/%d/%Y").date()` as a partial function:
`some (year, month, day)` on success, `none` when Python raises
`ValueError`. -/
def parseMDY (l : List Nat) : Option (Nat × Nat × Nat) :=
  match splitSlash l with
  | none => none
  | some (mt, rest) =>
    match splitSlash rest with
    | none => none
    | some (dt, yt) =>
      match monthTok mt, dayTok dt, yearTok yt with
      | some m, some d, some y =>
        if d ≤ daysInMonth y m then some (y, m, d) else none
      | _, _, _ => none

def daysBeforeMonth (y m : Nat) : Nat :=
  (List.range (m - 1)).foldl (fun acc i => acc + daysInMonth y (i + 1)) 0

/-- `date.toordinal()`: day number in the proleptic Gregorian calendar,
with 0001-01-01 as day 1. -/
def toOrdinal (y m d : Nat) : Nat :=
  365 * (y - 1) + (y - 1) / 4 - (y - 1) / 100 + (y - 1) / 400 +
    daysBeforeMonth y m + d

def toOrdinal3 (x : Nat × Nat × Nat) : Nat := toOrdinal x.1 x.2.1 x.2.2

/-- The body of the `for` loop of `check_expiring_warranties`: state is the
pair (`expiring_soon`, warnings logged so far); a parse failure appends a
warning event `(item, date_str)` instead of raising. -/
def checkStep (today : Nat × Nat × Nat) (days_threshold : Int)
    (st : List (List Nat × (Nat × Nat × Nat) × List Nat) × List (List Nat × List Nat))
    (w : List Nat × List Nat × List Nat) :
    List (List Nat × (Nat × Nat × Nat) × List Nat) × List (List Nat × List Nat) :=
  match parseMDY w.2.1 with
  | some ymd =>
    if (toOrdinal3 ymd : Int) - toOrdinal3 today ≤ days_threshold
    then (st.1 ++ [(w.1, ymd, w.2.2)], st.2)
    else st
  | none => (st.1, st.2 ++ [(w.1, w.2.1)])

/-- `check_expiring_warranties(warranties, days_threshold)`: first component
the returned `expiring_soon` list, second the warning events; `today` is
the value `datetime.now().date()` produces during the call. -/
def check_expiring_warranties (today : Nat × Nat × Nat)
    (warranties : List (List Nat × List Nat × List Nat)) (days_threshold : Int) :
    List (List Nat × (Nat × Nat × Nat) × List Nat) × List (List Nat × List Nat) :=
  warranties.foldl (checkStep today days_threshold) ([], [])

/-- The per-record inclusion rule of the claim: the record is kept exactly
when its date string parses and the signed day difference to `today` is at
most the threshold, and it then carries the parsed date. -/
def expiringSelect (today : Nat × Nat × Nat) (days_threshold : Int)
    (w : List Nat × List Nat × List Nat) :
    Option (List Nat × (Nat × Nat × Nat) × List Nat) :=
  match parseMDY w.2.1 with
  | some ymd =>
    if (toOrdinal3 ymd : Int) - toOrdinal3 today ≤ days_threshold
    then some (w.1, ymd, w.2.2) else none
  | none => none

/-- The per-record warning rule: a warning event exactly for parse failures. -/
def warnSelect (w : List Nat × List Nat × List Nat) : Option (List Nat × List Nat) :=
  match parseMDY w.2.1 with
  | some _ => none
  | none => some (w.1, w.2.1)

/-!
## Output artifact (`generate_output`, lines 41-53; `process_receipt`, 66-72)

`process_receipt` is modelled from the OCR result onward (image decoding
and the OCR engine are external collaborators): given the output root, the
source file stem and the extracted text, it produces the artifact path
`os.path.flatten(os.path.flatten(output_dir, category), stem + ".txt")` and the
artifact content, the concatenation of `generate_output`'s `file.write`
calls.
-/

/-- `extract_warranty_and_products` from the source: the pair of the
warranty-date search and the product `findall`. -/
def extract_warranty_and_products (text : List Nat) :
    Option (List Nat) × List (List Nat × List Nat) :=
  (extract_warranty_date text, extract_products text)

/-- POSIX `os.path.flatten` on one component. -/
def pathJoin (a b : List Nat) : List Nat :=
  if b.head? = some 47 then b
  else if a = [] then b
  else if a.getLast? = some 47 then a ++ b
  else a ++ 47 :: b

/-- The concatenation of the `file.write` calls of `generate_output`: the
content of the produced text artifact. -/
def generate_output (category : List Nat) (warranty_date : Option (List Nat))
    (products : List (List Nat × List Nat)) (text : List Nat) : List Nat :=
  strToL "Category: " ++ category ++ [10, 10] ++
  strToL "Extracted Text:" ++ 10 :: text ++ [10, 10] ++
  (match warranty_date with
   | some d => strToL "Warranty Date: " ++ d ++ [10]
   | none => []) ++
  strToL "Products:" ++ [10] ++
  (products.map fun np => np.1 ++ strToL ": " ++ np.2 ++ [10]).flatten

/-- The post-OCR portion of `process_receipt`: returns the artifact path
and its content. -/
def process_receipt (output_dir stem text : List Nat) : List Nat × List Nat :=
  (pathJoin (pathJoin output_dir (categorize_receipt text)) (stem ++ strToL ".txt"),
   generate_output (categorize_receipt text) (extract_warranty_and_products text).1
     (extract_warranty_and_products text).2 text)

theorem toLowerN_ne_87 (c : Nat) : toLowerN c ≠ 87 := by
  unfold toLowerN
  split_ifs with h <;> omega

theorem not_mem_lowerL_87 (t : List Nat) : 87 ∉ lowerL t := by
  intro h
  rcases List.mem_map.mp h with ⟨c, _, hc⟩
  exact toLowerN_ne_87 c hc

theorem containsSub_cons_of_not_mem {c : Nat} {k h : List Nat} (hc : c ∉ h) :
    containsSub (c :: k) h = false := by
  induction h with
  | nil => rfl
  | cons a t ih =>
    have hca : c ≠ a := fun he => hc (he ▸ List.mem_cons_self a t)
    have ht : c ∉ t := fun hm => hc (List.mem_cons_of_mem a hm)
    simp [containsSub, isPrefixL, hca, ih ht]

/-- The uppercase keyword `'WARRENTY'` never occurs in a lowercased text. -/
theorem containsSub_WARRENTY (t : List Nat) :
    containsSub (strToL "WARRENTY") (lowerL t) = false := by
  rw [show strToL "WARRENTY" = 87 :: strToL "ARRENTY" from rfl]
  exact containsSub_cons_of_not_mem (not_mem_lowerL_87 t)

theorem categorize_mem_labels (t : List Nat) :
    categorize_receipt t ∈
      [strToL "restaurant", strToL "grocery", strToL "electronics",
       strToL "warrenty", strToL "other"] := by
  unfold categorize_receipt
  split_ifs <;> simp

/-- C1 (amended): `categorize_receipt` always returns exactly one label from
the closed set \x7brestaurant, grocery, electronics, warrenty, other\x7d (the
fourth label is spelled `warrenty` in the source). -/
theorem categorize_total_in_labels (t : List Nat) :
    categorize_receipt t ∈
      [strToL "restaurant", strToL "grocery", strToL "electronics",
       strToL "warrenty", strToL "other"] :=
  categorize_mem_labels t

/-- C1 counterexample to the claim as stated: on the text `"expiry"` the code
returns the label `warrenty`, which is outside the claimed closed set
\x7brestaurant, grocery, electronics, warranty, other\x7d. -/
theorem categorize_expiry_not_in_claimed_labels :
    categorize_receipt (strToL "expiry") ∉
      [strToL "restaurant", strToL "grocery", strToL "electronics",
       strToL "warranty", strToL "other"] := by decide

/-- C2 counterexample to the claim as stated: the text `"valid until"`
contains a keyword of the fourth table entry and no earlier keyword, so the
claim predicts the label `warranty`; the code returns neither `warranty` nor
`other`, but the misspelled label `warrenty`. -/
theorem categorize_valid_until_neither_warranty_nor_other :
    categorize_receipt (strToL "valid until") ≠ strToL "warranty" ∧
    categorize_receipt (strToL "valid until") ≠ strToL "other" := by decide

/-- C2 (amended): for every text, `categorize_receipt` returns the first
category in the literal declared table order (restaurant, grocery,
electronics, warrenty) for which some keyword of that category appears as a
case-insensitive substring of the text, and `other` if none does. -/
theorem categorize_eq_spec (t : List Nat) :
    categorize_receipt t = categorizeSpec t := by
  unfold categorize_receipt categorizeSpec
  rw [show lowerL (strToL "restaurant") = strToL "restaurant" from rfl,
      show lowerL (strToL "cafe") = strToL "cafe" from rfl,
      show lowerL (strToL "diner") = strToL "diner" from rfl,
      show lowerL (strToL "grocery") = strToL "grocery" from rfl,
      show lowerL (strToL "supermarket") = strToL "supermarket" from rfl,
      show lowerL (strToL "food") = strToL "food" from rfl,
      show lowerL (strToL "walmart") = strToL "walmart" from rfl,
      show lowerL (strToL "electronics") = strToL "electronics" from rfl,
      show lowerL (strToL "technology") = strToL "technology" from rfl,
      show lowerL (strToL "gadget") = strToL "gadget" from rfl,
      show lowerL (strToL "warrenty") = strToL "warrenty" from rfl,
      show lowerL (strToL "WARRENTY") = strToL "warrenty" from rfl,
      show lowerL (strToL "valid until") = strToL "valid until" from rfl,
      show lowerL (strToL "expiry") = strToL "expiry" from rfl,
      containsSub_WARRENTY t]
  cases containsSub (strToL "warrenty") (lowerL t) <;> simp

/-- C10: the uppercase keyword `'WARRENTY'` can never match any input (the
text is lowercased before the membership test), and removing it from the
table yields a categorizer extensionally equal to the original. -/
theorem categorize_WARRENTY_dead :
    (∀ t : List Nat, containsSub (strToL "WARRENTY") (lowerL t) = false) ∧
    ∀ t : List Nat, categorize_receipt t = categorize_receipt_noW t := by
  refine ⟨containsSub_WARRENTY, fun t => ?_⟩
  unfold categorize_receipt categorize_receipt_noW
  rw [containsSub_WARRENTY t]
  cases containsSub (strToL "warrenty") (lowerL t) <;> simp

theorem noNLB_cons (c : Nat) (x : List Nat) :
    noNLB (c :: x) = ((!(c == 10)) && noNLB x) := rfl

theorem fd_none_iff (l : List Nat) :
    findDateNoNL l = none ↔
      ∀ j : Nat, noNLB (l.take j) = true → dateHere (l.drop j) = none := by
  induction l with
  | nil =>
    simp only [List.take_nil, List.drop_nil]
    constructor
    · intro _ j _
      rfl
    · intro _
      rfl
  | cons c t ih =>
    cases hd : dateHere (c :: t) with
    | some d =>
      have hl : findDateNoNL (c :: t) = some d := by simp [findDateNoNL, hd]
      rw [hl]
      constructor
      · intro h
        exact Option.noConfusion h
      · intro h
        have h0 := h 0 rfl
        rw [List.drop_zero, hd] at h0
        exact Option.noConfusion h0
    | none =>
      cases hc : c == 10 with
      | true =>
        have hceq : c = 10 := by simpa using hc
        have hl : findDateNoNL (c :: t) = none := by simp [findDateNoNL, hd, hc]
        rw [hl]
        constructor
        · intro _ j hj
          cases j with
          | zero => rw [List.drop_zero]; exact hd
          | succ j' =>
            rw [List.take_succ_cons, noNLB_cons, hceq] at hj
            simp at hj
        · intro _
          rfl
      | false =>
        have hl : findDateNoNL (c :: t) = findDateNoNL t := by
          simp [findDateNoNL, hd, hc]
        rw [hl, ih]
        constructor
        · intro h j hj
          cases j with
          | zero => rw [List.drop_zero]; exact hd
          | succ j' =>
            rw [List.take_succ_cons, noNLB_cons] at hj
            rw [List.drop_succ_cons]
            exact h j' (by simp at hj; exact hj.2)
        · intro h j hj
          have := h (j + 1) (by rw [List.take_succ_cons, noNLB_cons, hc]; simpa using hj)
          rw [List.drop_succ_cons] at this
          exact this

theorem fd_some_iff (l : List Nat) (d : List Nat) :
    findDateNoNL l = some d ↔
      ∃ j : Nat, noNLB (l.take j) = true ∧ dateHere (l.drop j) = some d ∧
        ∀ k, k < j → dateHere (l.drop k) = none := by
  induction l with
  | nil =>
    constructor
    · intro h
      exact Option.noConfusion h
    · rintro ⟨j, -, hdj, -⟩
      rw [List.drop_nil] at hdj
      exact Option.noConfusion hdj
  | cons c t ih =>
    cases hd : dateHere (c :: t) with
    | some d0 =>
      have hl : findDateNoNL (c :: t) = some d0 := by simp [findDateNoNL, hd]
      rw [hl]
      constructor
      · intro h
        refine ⟨0, rfl, ?_, ?_⟩
        · rw [List.drop_zero, hd]; exact h
        · intro k hk
          exact absurd hk (Nat.not_lt_zero k)
      · rintro ⟨j, hnl, hdj, hmin⟩
        cases j with
        | zero => rw [List.drop_zero, hd] at hdj; exact hdj
        | succ j' =>
          have h0 := hmin 0 (Nat.succ_pos j')
          rw [List.drop_zero, hd] at h0
          exact Option.noConfusion h0
    | none =>
      cases hc : c == 10 with
      | true =>
        have hceq : c = 10 := by simpa using hc
        have hl : findDateNoNL (c :: t) = none := by simp [findDateNoNL, hd, hc]
        rw [hl]
        constructor
        · intro h
          exact Option.noConfusion h
        · rintro ⟨j, hnl, hdj, hmin⟩
          cases j with
          | zero => rw [List.drop_zero, hd] at hdj; exact Option.noConfusion hdj
          | succ j' =>
            rw [List.take_succ_cons, noNLB_cons, hceq] at hnl
            simp at hnl
      | false =>
        have hl : findDateNoNL (c :: t) = findDateNoNL t := by
          simp [findDateNoNL, hd, hc]
        rw [hl, ih]
        constructor
        · rintro ⟨j, hnl, hdj, hmin⟩
          refine ⟨j + 1, ?_, ?_, ?_⟩
          · rw [List.take_succ_cons, noNLB_cons, hc]
            simpa using hnl
          · rw [List.drop_succ_cons]; exact hdj
          · intro k hk
            cases k with
            | zero => rw [List.drop_zero]; exact hd
            | succ k' =>
              rw [List.drop_succ_cons]
              exact hmin k' (by omega)
        · rintro ⟨j, hnl, hdj, hmin⟩
          cases j with
          | zero => rw [List.drop_zero, hd] at hdj; exact Option.noConfusion hdj
          | succ j' =>
            refine ⟨j', ?_, ?_, ?_⟩
            · rw [List.take_succ_cons, noNLB_cons] at hnl
              simp at hnl
              exact hnl.2
            · rw [List.drop_succ_cons] at hdj; exact hdj
            · intro k hk
              have := hmin (k + 1) (by omega)
              rw [List.drop_succ_cons] at this
              exact this

theorem fullMatch_shift (c : Nat) (t : List Nat) (i j : Nat) (d : List Nat) :
    FullMatch (c :: t) (i + 1) (j + 1) d ↔ FullMatch t i j d := by
  unfold FullMatch
  rw [List.drop_succ_cons,
      show i + 1 + 8 = (i + 8) + 1 by omega, List.drop_succ_cons,
      show j + 1 - (i + 8 + 1) = j - (i + 8) by omega,
      List.drop_succ_cons]
  constructor
  · rintro ⟨h1, h2, h3, h4⟩
    exact ⟨h1, by omega, h3, h4⟩
  · rintro ⟨h1, h2, h3, h4⟩
    exact ⟨h1, by omega, h3, h4⟩

theorem fullMatch_zero_iff (c : Nat) (t : List Nat) (j : Nat) (d : List Nat) :
    FullMatch (c :: t) 0 j d ↔
      warrantyAt (c :: t) = true ∧ 8 ≤ j ∧
      noNLB (((c :: t).drop 8).take (j - 8)) = true ∧
      dateHere (((c :: t).drop 8).drop (j - 8)) = some d := by
  unfold FullMatch
  rw [List.drop_zero]
  constructor
  · rintro ⟨h1, h2, h3, h4⟩
    refine ⟨h1, by omega, by simpa using h3, ?_⟩
    rw [List.drop_drop, show 8 + (j - 8) = j by omega]
    exact h4
  · rintro ⟨h1, h2, h3, h4⟩
    refine ⟨h1, by omega, by simpa using h3, ?_⟩
    rw [List.drop_drop, show 8 + (j - 8) = j by omega] at h4
    exact h4

theorem no_zero_match_of_wa_false {c : Nat} {t : List Nat}
    (hw : warrantyAt (c :: t) = false) :
    ∀ j d, ¬ FullMatch (c :: t) 0 j d := by
  intro j d h
  obtain ⟨h1, -, -, -⟩ := h
  rw [List.drop_zero, hw] at h1
  exact Bool.noConfusion h1

theorem no_zero_match_of_fd_none {c : Nat} {t : List Nat}
    (hfd : findDateNoNL ((c :: t).drop 8) = none) :
    ∀ j d, ¬ FullMatch (c :: t) 0 j d := by
  intro j d h
  rw [fullMatch_zero_iff] at h
  obtain ⟨-, hj, hnl, hdate⟩ := h
  have hnone := (fd_none_iff _).mp hfd (j - 8) hnl
  rw [hnone] at hdate
  exact Option.noConfusion hdate

theorem step_none {c : Nat} {t : List Nat}
    (h0 : ∀ j d, ¬ FullMatch (c :: t) 0 j d) :
    (∀ i j d, ¬ FullMatch (c :: t) i j d) ↔ ∀ i j d, ¬ FullMatch t i j d := by
  constructor
  · intro H i j d hm
    exact H (i + 1) (j + 1) d ((fullMatch_shift c t i j d).mpr hm)
  · intro H i j d hm
    cases i with
    | zero => exact h0 j d hm
    | succ i' =>
      have hj : i' + 1 + 8 ≤ j := hm.2.1
      cases j with
      | zero => exact absurd hj (by omega)
      | succ j' =>
        rw [fullMatch_shift] at hm
        exact H i' j' d hm

theorem step_some {c : Nat} {t : List Nat}
    (h0 : ∀ j d', ¬ FullMatch (c :: t) 0 j d') (d : List Nat) :
    (∃ i j, FullMatch (c :: t) i j d ∧ LeftmostFM (c :: t) i j) ↔
      ∃ i j, FullMatch t i j d ∧ LeftmostFM t i j := by
  constructor
  · rintro ⟨i, j, hm, hlm⟩
    cases i with
    | zero => exact absurd hm (h0 j d)
    | succ i' =>
      have hj : i' + 1 + 8 ≤ j := hm.2.1
      cases j with
      | zero => exact absurd hj (by omega)
      | succ j' =>
        rw [fullMatch_shift] at hm
        refine ⟨i', j', hm, ?_⟩
        intro a b d' hab
        have hab' : FullMatch (c :: t) (a + 1) (b + 1) d' :=
          (fullMatch_shift c t a b d').mpr hab
        have h2 := hlm (a + 1) (b + 1) d' hab'
        refine ⟨by omega, fun he => ?_⟩
        have := h2.2 (by omega)
        omega
  · rintro ⟨i, j, hm, hlm⟩
    refine ⟨i + 1, j + 1, (fullMatch_shift c t i j d).mpr hm, ?_⟩
    intro a b d' hab
    cases a with
    | zero => exact absurd hab (h0 b d')
    | succ a' =>
      have hb : a' + 1 + 8 ≤ b := hab.2.1
      cases b with
      | zero => exact absurd hb (by omega)
      | succ b' =>
        rw [fullMatch_shift] at hab
        have h2 := hlm a' b' d' hab
        refine ⟨by omega, fun he => ?_⟩
        have := h2.2 (by omega)
        omega

theorem ew_cons_some {c : Nat} {t : List Nat} {d0 : List Nat}
    (hw : warrantyAt (c :: t) = true)
    (hfd : findDateNoNL ((c :: t).drop 8) = some d0) (d : List Nat) :
    (d = d0) ↔ ∃ i j, FullMatch (c :: t) i j d ∧ LeftmostFM (c :: t) i j := by
  obtain ⟨j0, hnl, hdj, hmin⟩ := (fd_some_iff _ _).mp hfd
  have hm0 : FullMatch (c :: t) 0 (8 + j0) d0 := by
    rw [fullMatch_zero_iff]
    refine ⟨hw, by omega, ?_, ?_⟩
    · rw [show 8 + j0 - 8 = j0 by omega]; exact hnl
    · rw [show 8 + j0 - 8 = j0 by omega]; exact hdj
  constructor
  · intro hdd
    subst hdd
    refine ⟨0, 8 + j0, hm0, ?_⟩
    intro i' j' d' h'
    refine ⟨Nat.zero_le i', fun hi' => ?_⟩
    subst hi'
    rw [fullMatch_zero_iff] at h'
    obtain ⟨-, hj', hnl', hd'⟩ := h'
    by_contra hcon
    push_neg at hcon
    have hlt : j' - 8 < j0 := by omega
    have hnone := hmin (j' - 8) hlt
    rw [hnone] at hd'
    exact Option.noConfusion hd'
  · rintro ⟨i, j, hm, hlm⟩
    have hi0 : i = 0 := Nat.le_zero.mp (hlm 0 (8 + j0) d0 hm0).1
    subst hi0
    have hj_le : j ≤ 8 + j0 := (hlm 0 (8 + j0) d0 hm0).2 rfl
    rw [fullMatch_zero_iff] at hm
    obtain ⟨-, hj8, hnlj, hdatej⟩ := hm
    have hge : j0 ≤ j - 8 := by
      by_contra hcon
      push_neg at hcon
      have hnone := hmin (j - 8) hcon
      rw [hnone] at hdatej
      exact Option.noConfusion hdatej
    have hjeq : j - 8 = j0 := by omega
    rw [hjeq, hdj] at hdatej
    exact (Option.some.inj hdatej).symm

theorem ew_none_iff (t : List Nat) :
    extract_warranty_date t = none ↔ ∀ i j d, ¬ FullMatch t i j d := by
  induction t with
  | nil =>
    constructor
    · intro _ i j d h
      obtain ⟨h1, -, -, -⟩ := h
      rw [List.drop_nil] at h1
      exact Bool.noConfusion h1
    · intro _
      rfl
  | cons c t ih =>
    cases hw : warrantyAt (c :: t) with
    | false =>
      have hl : extract_warranty_date (c :: t) = extract_warranty_date t := by
        simp [extract_warranty_date, hw]
      rw [hl, ih]
      exact (step_none (no_zero_match_of_wa_false hw)).symm
    | true =>
      cases hfd : findDateNoNL ((c :: t).drop 8) with
      | none =>
        have hfd7 : findDateNoNL (t.drop 7) = none := by simpa using hfd
        have hl : extract_warranty_date (c :: t) = extract_warranty_date t := by
          simp [extract_warranty_date, hw, hfd7]
        rw [hl, ih]
        exact (step_none (no_zero_match_of_fd_none hfd)).symm
      | some d0 =>
        have hfd7 : findDateNoNL (t.drop 7) = some d0 := by simpa using hfd
        have hl : extract_warranty_date (c :: t) = some d0 := by
          simp [extract_warranty_date, hw, hfd7]
        rw [hl]
        constructor
        · intro h
          exact Option.noConfusion h
        · intro h
          obtain ⟨j0, hnl, hdj, -⟩ := (fd_some_iff _ _).mp hfd
          have hm0 : FullMatch (c :: t) 0 (8 + j0) d0 := by
            rw [fullMatch_zero_iff]
            refine ⟨hw, by omega, ?_, ?_⟩
            · rw [show 8 + j0 - 8 = j0 by omega]; exact hnl
            · rw [show 8 + j0 - 8 = j0 by omega]; exact hdj
          exact absurd hm0 (h 0 (8 + j0) d0)

theorem ew_some_iff (t : List Nat) (d : List Nat) :
    extract_warranty_date t = some d ↔
      ∃ i j, FullMatch t i j d ∧ LeftmostFM t i j := by
  induction t generalizing d with
  | nil =>
    constructor
    · intro h
      exact Option.noConfusion h
    · rintro ⟨i, j, ⟨h1, -, -, -⟩, -⟩
      rw [List.drop_nil] at h1
      exact Bool.noConfusion h1
  | cons c t ih =>
    cases hw : warrantyAt (c :: t) with
    | false =>
      have hl : extract_warranty_date (c :: t) = extract_warranty_date t := by
        simp [extract_warranty_date, hw]
      rw [hl, ih d]
      exact (step_some (no_zero_match_of_wa_false hw) d).symm
    | true =>
      cases hfd : findDateNoNL ((c :: t).drop 8) with
      | none =>
        have hfd7 : findDateNoNL (t.drop 7) = none := by simpa using hfd
        have hl : extract_warranty_date (c :: t) = extract_warranty_date t := by
          simp [extract_warranty_date, hw, hfd7]
        rw [hl, ih d]
        exact (step_some (no_zero_match_of_fd_none hfd) d).symm
      | some d0 =>
        have hfd7 : findDateNoNL (t.drop 7) = some d0 := by simpa using hfd
        have hl : extract_warranty_date (c :: t) = some d0 := by
          simp [extract_warranty_date, hw, hfd7]
        rw [hl]
        constructor
        · intro h
          exact (ew_cons_some hw hfd d).mp (Option.some.inj h).symm
        · intro h
          rw [(ew_cons_some hw hfd d).mpr h]

/-- C3 (amended): `extract_warranty_date` returns `none` exactly when no
occurrence of the token `warranty` (case-insensitive) is followed, with no
intervening newline, by a `MM/DD/YYYY`-shaped date; when a match exists it
returns, verbatim, the ten-character date of the leftmost match (smallest
token position, then smallest date position); and on
`"receipt warranty valid until 05/01/2025 thanks"` it returns `05/01/2025`. -/
theorem extract_warranty_date_characterization :
    (∀ t : List Nat,
      (extract_warranty_date t = none ↔ ∀ i j d, ¬ FullMatch t i j d) ∧
      ∀ d : List Nat, extract_warranty_date t = some d ↔
        ∃ i j, FullMatch t i j d ∧ LeftmostFM t i j) ∧
    extract_warranty_date (strToL "receipt warranty valid until 05/01/2025 thanks") =
      some (strToL "05/01/2025") :=
  ⟨fun t => ⟨ew_none_iff t, ew_some_iff t⟩, by decide⟩

/-- C3 counterexample to the claim as stated: with a newline between the
token and the date, the claim's reading (`warranty` followed at any distance
by a date) finds `05/01/2025`, but the code returns `none`: the gap of the
source regex does not cross a newline. -/
theorem extract_warranty_date_newline_cex :
    extract_warranty_date_claim (strToL "warranty" ++ 10 :: strToL "05/01/2025") =
      some (strToL "05/01/2025") ∧
    extract_warranty_date (strToL "warranty" ++ 10 :: strToL "05/01/2025") = none := by
  decide

theorem takeWhile_all_append {f : Nat → Bool} :
    ∀ ds : List Nat, (∀ x ∈ ds, f x = true) → ∀ c : Nat, f c = false →
      ∀ r : List Nat, (ds ++ c :: r).takeWhile f = ds := by
  intro ds
  induction ds with
  | nil =>
    intro _ c hc r
    simp [List.takeWhile_cons, hc]
  | cons d ds ih =>
    intro h c hc r
    have hd : f d = true := h d (List.mem_cons_self d ds)
    simp only [List.cons_append, List.takeWhile_cons, hd, if_true]
    rw [ih (fun x hx => h x (List.mem_cons_of_mem d hx)) c hc r]

theorem priceAt_wf {l price tail : List Nat}
    (h : priceAt l = some (price, tail)) : priceWF price = true := by
  unfold priceAt at h
  cases he : (l.takeWhile isDigitB).isEmpty with
  | true => rw [if_pos he] at h; exact Option.noConfusion h
  | false =>
    rw [if_neg (by simp [he])] at h
    cases hdrop : l.drop (l.takeWhile isDigitB).length with
    | nil => rw [hdrop] at h; exact Option.noConfusion h
    | cons p r1 =>
      cases r1 with
      | nil => rw [hdrop] at h; exact Option.noConfusion h
      | cons a r2 =>
        cases r2 with
        | nil => rw [hdrop] at h; exact Option.noConfusion h
        | cons b rest =>
          rw [hdrop] at h
          cases hc : ((p == 46) && isDigitB a && isDigitB b) with
          | false =>
            simp only [hc] at h
            exact Option.noConfusion h
          | true =>
            simp only [hc, if_true] at h
            have hpair := Option.some.inj h
            have hprice : price = l.takeWhile isDigitB ++ [p, a, b] :=
              (congrArg Prod.fst hpair).symm
            have hp46 : p = 46 := by
              have := (Bool.and_eq_true _ _).mp ((Bool.and_eq_true _ _).mp hc).1
              simpa using this.1
            have hpd : isDigitB p = false := by rw [hp46]; decide
            have htw : ((l.takeWhile isDigitB) ++ p :: [a, b]).takeWhile isDigitB =
                l.takeWhile isDigitB :=
              takeWhile_all_append _ (fun x hx => List.mem_takeWhile_imp hx) p hpd [a, b]
            rw [hprice]
            unfold priceWF
            rw [show (l.takeWhile isDigitB ++ [p, a, b]) =
                  (l.takeWhile isDigitB ++ p :: [a, b]) from rfl, htw]
            rw [List.drop_left]
            simp only [he]
            simp [hc]

theorem itemsGo_price_wf :
    ∀ (fuel : Nat) (l n p : List Nat), (n, p) ∈ itemsGo fuel l → priceWF p = true := by
  intro fuel
  induction fuel with
  | zero =>
    intro l n p h
    simp [itemsGo] at h
  | succ f ih =>
    intro l n p h
    cases l with
    | nil => simp [itemsGo] at h
    | cons c rest =>
      cases hlast : ((c :: rest).takeWhile isNameChar).getLast? with
      | none =>
        simp only [itemsGo, hlast] at h
        exact ih rest n p h
      | some w =>
        cases hcond : decide (2 ≤ ((c :: rest).takeWhile isNameChar).length) && isSpaceB w with
        | false =>
          simp only [itemsGo, hlast, hcond] at h
          simp at h
          exact ih rest n p h
        | true =>
          cases hp : priceAt ((c :: rest).drop ((c :: rest).takeWhile isNameChar).length) with
          | none =>
            simp only [itemsGo, hlast, hcond, hp] at h
            simp at h
            exact ih rest n p h
          | some pr =>
            obtain ⟨price, tail⟩ := pr
            simp only [itemsGo, hlast, hcond, hp] at h
            simp only [if_true] at h
            rcases List.mem_cons.mp h with h1 | h2
            · have hpeq : p = price := congrArg Prod.snd h1
              rw [hpeq]
              exact priceAt_wf hp
            · exact ih tail n p h2

/-- C6 counterexample to the claim as stated: on `"Milk 3.50 Bread 2.25"`
the code does not return `[("Milk", "3.50"), ("Bread", "2.25")]` — the
second name group resumes right after the previous match and keeps the
leading space. -/
theorem extract_products_example_cex :
    extract_products (strToL "Milk 3.50 Bread 2.25") ≠
      [(strToL "Milk", strToL "3.50"), (strToL "Bread", strToL "2.25")] := by
  decide

/-- C6 (amended): `extract_products` returns one pair per pattern match in
order of appearance; on `"Milk 3.50 Bread 2.25"` it returns exactly
`[("Milk", "3.50"), (" Bread", "2.25")]` — the second name carries the
leading space, since scanning resumes right after the previous match and
names are not trimmed. -/
theorem extract_products_example :
    extract_products (strToL "Milk 3.50 Bread 2.25") =
      [(strToL "Milk", strToL "3.50"), (strToL " Bread", strToL "2.25")] := by
  decide

/-- C7: every price in the pairs returned by `extract_products` matches
`\d+\.\d\x7b2\x7d` in full — at least one integer digit, a dot, exactly two
fraction digits; and the malformed `"Milk 3.5"` yields no line item. -/
theorem extract_products_prices_wellformed :
    (∀ t n p : List Nat, (n, p) ∈ extract_products t → priceWF p = true) ∧
    extract_products (strToL "Milk 3.5") = [] := by
  constructor
  · intro t n p h
    exact itemsGo_price_wf t.length t n p h
  · decide

/-- Witness for C7 at a concrete input. -/
theorem extract_products_prices_wellformed_witness :
    (strToL "Milk", strToL "3.50") ∈ extract_products (strToL "Milk 3.50") ∧
    priceWF (strToL "3.50") = true :=
  ⟨by decide,
   extract_products_prices_wellformed.1 (strToL "Milk 3.50") (strToL "Milk")
     (strToL "3.50") (by decide)⟩

example : extract_products (strToL "  3.50") = [(strToL " ", strToL "3.50")] := by decide

example : extract_products (strToL "Milk  3.50") = [(strToL "Milk ", strToL "3.50")] := by
  decide

example : extract_products (strToL "Tax 0.99 Total 10.99") =
    [(strToL "Tax", strToL "0.99"), (strToL " Total", strToL "10.99")] := by decide

example : extract_products (strToL "a1.50") = [] := by decide

example : extract_products (strToL "Milk 3.555") = [(strToL "Milk", strToL "3.55")] := by
  decide

example : extract_products (strToL "Milk 105.50") = [(strToL "Milk", strToL "105.50")] := by
  decide

example : extract_warranty_date (strToL "xxwarranty a 13/40/2024 05/01/2025") =
    some (strToL "13/40/2024") := by decide

example : extract_warranty_date (strToL "warranty valid until 05/01/2025 thanks") =
    some (strToL "05/01/2025") := by decide

example : extract_warranty_date (strToL "no token 05/01/2025") = none := by decide

example : extract_warranty_date (strToL "Warranty: 12/31/2024 or 01/01/2025") =
    some (strToL "12/31/2024") := by decide

example : extract_warranty_date (strToL "warranty" ++ 10 :: strToL "05/01/2025") = none := by
  decide

theorem check_foldl_eq (today : Nat × Nat × Nat) (thr : Int) :
    ∀ (ws : List (List Nat × List Nat × List Nat))
      (st : List (List Nat × (Nat × Nat × Nat) × List Nat) × List (List Nat × List Nat)),
      ws.foldl (checkStep today thr) st =
        (st.1 ++ ws.filterMap (expiringSelect today thr),
         st.2 ++ ws.filterMap warnSelect) := by
  intro ws
  induction ws with
  | nil =>
    intro st
    simp
  | cons w ws ih =>
    intro st
    rw [List.foldl_cons, ih]
    cases hp : parseMDY w.2.1 with
    | some ymd =>
      by_cases hc : (toOrdinal3 ymd : Int) - toOrdinal3 today ≤ thr
      · simp [checkStep, expiringSelect, warnSelect, hp, hc]
      · simp [checkStep, expiringSelect, warnSelect, hp, hc]
    | none => simp [checkStep, expiringSelect, warnSelect, hp]

/-- C4: the `expiring_soon` list of `check_expiring_warranties` keeps, in
input order, exactly the records whose date string parses under `%m/%d/%Y`
and whose signed day distance from `today` is at most the threshold
(inclusive; negative distances of already-expired dates included), each
carrying the parsed date; checked also on concrete records (5 days ahead
kept, 22 days ahead dropped, unparsable dropped, yesterday kept). -/
theorem check_expiring_characterization :
    (∀ (today : Nat × Nat × Nat) (ws : List (List Nat × List Nat × List Nat)) (thr : Int),
      (check_expiring_warranties today ws thr).1 =
        ws.filterMap (expiringSelect today thr)) ∧
    (check_expiring_warranties (2024, 1, 10)
        [(strToL "tv", strToL "01/15/2024", strToL "p1"),
         (strToL "pc", strToL "02/01/2024", strToL "p2"),
         (strToL "cam", strToL "13/40/2024", strToL "p3"),
         (strToL "mic", strToL "01/09/2024", strToL "p4")] 7).1 =
      [(strToL "tv", (2024, 1, 15), strToL "p1"),
       (strToL "mic", (2024, 1, 9), strToL "p4")] := by
  constructor
  · intro today ws thr
    unfold check_expiring_warranties
    rw [check_foldl_eq today thr ws ([], [])]
    simp
  · decide

/-- C5: a record whose date string fails to parse is skipped — the
`expiring_soon` output equals the one with the record absent, so the
remaining records are processed unchanged — and a warning event for it is
logged; nothing is raised (the function is total). -/
theorem check_malformed_skipped (today : Nat × Nat × Nat) (thr : Int)
    (pre post : List (List Nat × List Nat × List Nat))
    (item ds path : List Nat) (hbad : parseMDY ds = none) :
    (check_expiring_warranties today (pre ++ (item, ds, path) :: post) thr).1 =
      (check_expiring_warranties today (pre ++ post) thr).1 ∧
    (item, ds) ∈ (check_expiring_warranties today (pre ++ (item, ds, path) :: post) thr).2 := by
  have hsel : expiringSelect today thr (item, ds, path) = none := by
    simp [expiringSelect, hbad]
  have hwarn : warnSelect (item, ds, path) = some (item, ds) := by
    simp [warnSelect, hbad]
  constructor
  · unfold check_expiring_warranties
    rw [check_foldl_eq today thr (pre ++ (item, ds, path) :: post) ([], []),
        check_foldl_eq today thr (pre ++ post) ([], [])]
    simp [List.filterMap_append, hsel]
  · unfold check_expiring_warranties
    rw [check_foldl_eq today thr (pre ++ (item, ds, path) :: post) ([], [])]
    simp [List.filterMap_append, hwarn]

/-- Witness for C5 at concrete records: the middle record has the
unparsable date `13/40/2024`. -/
theorem check_malformed_skipped_witness :
    parseMDY (strToL "13/40/2024") = none ∧
    ((check_expiring_warranties (2024, 1, 10)
        ([(strToL "tv", strToL "01/15/2024", strToL "p1")] ++
          (strToL "cam", strToL "13/40/2024", strToL "p3") ::
            [(strToL "mic", strToL "01/09/2024", strToL "p4")]) 7).1 =
      (check_expiring_warranties (2024, 1, 10)
        ([(strToL "tv", strToL "01/15/2024", strToL "p1")] ++
          [(strToL "mic", strToL "01/09/2024", strToL "p4")]) 7).1 ∧
    (strToL "cam", strToL "13/40/2024") ∈
      (check_expiring_warranties (2024, 1, 10)
        ([(strToL "tv", strToL "01/15/2024", strToL "p1")] ++
          (strToL "cam", strToL "13/40/2024", strToL "p3") ::
            [(strToL "mic", strToL "01/09/2024", strToL "p4")]) 7).2) :=
  ⟨by decide,
   check_malformed_skipped (2024, 1, 10) 7
     [(strToL "tv", strToL "01/15/2024", strToL "p1")]
     [(strToL "mic", strToL "01/09/2024", strToL "p4")]
     (strToL "cam") (strToL "13/40/2024") (strToL "p3") (by decide)⟩

/-- C9: the expiring-soon result depends on the wall-clock date read by
`datetime.now()` inside the function (modelled as the `today` argument):
identical records and threshold give different results on different
ambient dates, so the Python function is not deterministic in its declared
inputs alone. -/
theorem check_depends_on_clock :
    (check_expiring_warranties (2024, 1, 10)
        [(strToL "tv", strToL "01/15/2024", strToL "p1")] 7).1 ≠
      (check_expiring_warranties (2023, 12, 1)
        [(strToL "tv", strToL "01/15/2024", strToL "p1")] 7).1 := by
  decide

example : parseMDY (strToL "01/15/2024") = some (2024, 1, 15) := by decide
example : parseMDY (strToL "13/40/2024") = none := by decide
example : parseMDY (strToL "1/5/2024") = some (2024, 1, 5) := by decide
example : parseMDY (strToL "02/30/2024") = none := by decide
example : parseMDY (strToL "02/29/2024") = some (2024, 2, 29) := by decide
example : parseMDY (strToL "02/29/2023") = none := by decide
example : parseMDY (strToL "0/5/2024") = none := by decide
example : parseMDY (strToL "01/15/24") = none := by decide
example : parseMDY (strToL "01/15/2024 ") = none := by decide
example : toOrdinal 2024 1 10 = 738895 := by decide
example : toOrdinal 2024 1 15 = 738900 := by decide
example : toOrdinal 2023 12 1 = 738855 := by decide

theorem categorize_no_slash (t : List Nat) :
    categorize_receipt t ≠ [] ∧ (categorize_receipt t).head? ≠ some 47 ∧
      (categorize_receipt t).getLast? ≠ some 47 := by
  have h := categorize_mem_labels t
  simp only [List.mem_cons, List.not_mem_nil, or_false] at h
  rcases h with h | h | h | h | h <;> rw [h] <;> exact ⟨by decide, by decide, by decide⟩

/-- C8: for every output root not ending in a separator and stem not
starting with one, the processed receipt's artifact path is
`outputRoot/category/stem.txt`, and its content is, in order: the Category
line, a blank line, the `Extracted Text:` header with the raw text
verbatim, a blank line, a `Warranty Date:` line only when a date was
detected, the `Products:` header, and one `name: price` line per extracted
product, in extraction order. -/
theorem process_receipt_layout (dir stem text : List Nat)
    (hdir : dir ≠ []) (hdirs : dir.getLast? ≠ some 47)
    (hstem : stem.head? ≠ some 47) :
    process_receipt dir stem text =
      (dir ++ 47 :: categorize_receipt text ++ 47 :: stem ++ strToL ".txt",
       strToL "Category: " ++ categorize_receipt text ++ [10, 10] ++
         strToL "Extracted Text:" ++ 10 :: text ++ [10, 10] ++
         (match extract_warranty_date text with
          | some d => strToL "Warranty Date: " ++ d ++ [10]
          | none => []) ++
         strToL "Products:" ++ [10] ++
         ((extract_products text).map fun np => np.1 ++ strToL ": " ++ np.2 ++ [10]).flatten) := by
  obtain ⟨hc1, hc2, hc3⟩ := categorize_no_slash text
  have h1 : pathJoin dir (categorize_receipt text) =
      dir ++ 47 :: categorize_receipt text := by
    unfold pathJoin
    rw [if_neg hc2, if_neg hdir, if_neg hdirs]
  have hb : ¬((stem ++ strToL ".txt").head? = some 47) := by
    cases stem with
    | nil => decide
    | cons s ss =>
      simp only [List.cons_append, List.head?_cons]
      simpa using hstem
  have hl : ¬((dir ++ 47 :: categorize_receipt text).getLast? = some 47) := by
    rw [List.getLast?_append_cons]
    cases hcat : categorize_receipt text with
    | nil => exact absurd hcat hc1
    | cons x xs =>
      rw [List.getLast?_cons_cons]
      rw [hcat] at hc3
      exact hc3
  have h2 : pathJoin (dir ++ 47 :: categorize_receipt text) (stem ++ strToL ".txt") =
      (dir ++ 47 :: categorize_receipt text) ++ 47 :: (stem ++ strToL ".txt") := by
    unfold pathJoin
    rw [if_neg hb, if_neg (by simp), if_neg hl]
  unfold process_receipt
  rw [h1, h2]
  simp [List.append_assoc, List.cons_append, generate_output, extract_warranty_and_products]

/-- Witness for C8 at a concrete receipt text containing a category
keyword, a warranty date and one product. -/
theorem process_receipt_layout_witness :
    ((strToL "out" ≠ []) ∧ (strToL "out").getLast? ≠ some 47 ∧
      (strToL "r1").head? ≠ some 47) ∧
    process_receipt (strToL "out") (strToL "r1")
        (strToL "grocery warranty until 01/01/2099 Milk 3.50") =
      (strToL "out" ++ 47 ::
         categorize_receipt (strToL "grocery warranty until 01/01/2099 Milk 3.50") ++
         47 :: strToL "r1" ++ strToL ".txt",
       strToL "Category: " ++
         categorize_receipt (strToL "grocery warranty until 01/01/2099 Milk 3.50") ++
         [10, 10] ++ strToL "Extracted Text:" ++
         10 :: strToL "grocery warranty until 01/01/2099 Milk 3.50" ++ [10, 10] ++
         (match extract_warranty_date
             (strToL "grocery warranty until 01/01/2099 Milk 3.50") with
          | some d => strToL "Warranty Date: " ++ d ++ [10]
          | none => []) ++
         strToL "Products:" ++ [10] ++
         ((extract_products (strToL "grocery warranty until 01/01/2099 Milk 3.50")).map
             fun np => np.1 ++ strToL ": " ++ np.2 ++ [10]).flatten) :=
  ⟨⟨by decide, by decide, by decide⟩,
   process_receipt_layout (strToL "out") (strToL "r1")
     (strToL "grocery warranty until 01/01/2099 Milk 3.50")
     (by decide) (by decide) (by decide)⟩

example : extract_warranty_date_claim (strToL "warranty" ++ 10 :: strToL "05/01/2025") =
    some (strToL "05/01/2025") := by decide

end Receipt
